import Mathlib

/-!
Verification of `src/TestDir/node-announcer.cpp` (QuackingBob/MiscellaneousScripts).

The C++ program simulates NUM_NODES = 20 mobile nodes and broadcasts two UDP
streams: per-node position packets and random weighted graph snapshots.  This
file shallowly embeds the parts of the program the specification's claims are
about: the byte-level wire layouts (bytes are natural numbers < 256, buffers
are `List ℕ`), the graph generator, the world model (IEEE-754 single floats
are modelled by exact rationals: the clamping logic uses only comparison and
addition, and the serialization theorems treat floats purely as 32-bit
patterns), the UDP send wrapper, and the producer loops (as event traces).
-/

namespace NodeAnnouncer

/-! ### Byte-level serialization primitives -/

/-- The two little-endian bytes of a 16-bit value. -/
def le16 (n : ℕ) : List ℕ := [n % 256, n / 256 % 256]

/-- The four little-endian bytes of a 32-bit value (e.g. the bit pattern of a
`float`). -/
def le32 (n : ℕ) : List ℕ :=
  [n % 256, n / 256 % 256, n / 65536 % 256, n / 16777216 % 256]

/-- `memcpy(dst + off, src, src.length)` on byte buffers. -/
def memcpyAt (dst : List ℕ) (off : ℕ) (src : List ℕ) : List ℕ :=
  dst.take off ++ src ++ dst.drop (off + src.length)

/-! ### PositionPacket (node-announcer.cpp lines 32–37, 222–233)

`struct PositionPacket { uint16_t node_id; float x; float y; }` has, under the
usual alignment rules the source comments rely on, the 12-byte in-memory
layout: `node_id` at bytes 0–1, two padding bytes at 2–3, `x` at 4–7, `y` at
8–11.  `xbits`/`ybits` are the 32-bit IEEE-754 patterns of the floats, `pad`
the indeterminate 16-bit content of the padding. -/

/-- In-memory bytes of a `PositionPacket` record. -/
def positionRecord (nodeId pad xbits ybits : ℕ) : List ℕ :=
  le16 nodeId ++ le16 pad ++ le32 xbits ++ le32 ybits

/-- The record just before the send: line 231 executes
`memcpy((char*)&packet + 2, &packet, sizeof(uint16_t))`, copying the two
`node_id` bytes over the padding bytes 2–3. -/
def positionRecordAtSend (nodeId pad xbits ybits : ℕ) : List ℕ :=
  memcpyAt (positionRecord nodeId pad xbits ybits) 2
    ((positionRecord nodeId pad xbits ybits).take 2)

/-- The emitted datagram: line 232 sends `sizeof(packet) - sizeof(uint16_t)`
= 12 − 2 = 10 bytes starting at offset 2 of the record. -/
def positionWire (nodeId pad xbits ybits : ℕ) : List ℕ :=
  ((positionRecordAtSend nodeId pad xbits ybits).drop 2).take (12 - 2)

/-- Modelled from the spec: the Position packet layout claimed in §4.1 —
bytes 0–1 `node_id`, bytes 2–3 padding of unspecified value `pad2`, bytes 4–7
`x`, bytes 8–9 the first two (little-endian low) bytes of `y`. -/
def claimedPositionLayout (nodeId pad2 xbits ybits : ℕ) : List ℕ :=
  le16 nodeId ++ le16 pad2 ++ le32 xbits ++ (le32 ybits).take 2

/-! ### GraphPacket (node-announcer.cpp lines 39–49, 245–260)

`struct GraphEdge { uint16_t source_id, target_id, strength; }` is 6 bytes
with no padding; `struct GraphPacket { uint16_t sender_id; uint16_t
edge_count; GraphEdge edges[50]; }` is 2 + 2 + 50·6 = 304 bytes with no
padding. -/

structure GraphEdge where
  source_id : ℕ
  target_id : ℕ
  strength : ℕ
deriving DecidableEq

structure GraphPacket where
  sender_id : ℕ
  edge_count : ℕ
  edges : List GraphEdge
deriving DecidableEq

/-- The 6 bytes of one `GraphEdge`. -/
def serializeGraphEdge (e : GraphEdge) : List ℕ :=
  le16 e.source_id ++ le16 e.target_id ++ le16 e.strength

/-- Concatenated bytes of a sequence of edges (no inter-record padding). -/
def bytesOfEdges : List GraphEdge → List ℕ
  | [] => []
  | e :: es => serializeGraphEdge e ++ bytesOfEdges es

/-- The send length computed at line 255:
`sizeof(GraphPacket) - sizeof(GraphEdge) * (50 - packet.edge_count)`
with `sizeof(GraphPacket) = 304` and `sizeof(GraphEdge) = 6`. -/
def graphSendLen (edgeCount : ℕ) : ℕ := 304 - 6 * (50 - edgeCount)

/-- The in-memory bytes of a `GraphPacket` whose 50-slot `edges` array holds
the `edge_count` generated edges followed by indeterminate `junk` slots, and
the emitted datagram: line 255 sends the first `graphSendLen edge_count`
bytes of that buffer. -/
def graphWire (p : GraphPacket) (junk : List GraphEdge) : List ℕ :=
  (le16 p.sender_id ++ le16 p.edge_count ++ bytesOfEdges (p.edges ++ junk)).take
    (graphSendLen p.edge_count)

/-! ### GraphGenerator (node-announcer.cpp lines 162–191)

The constructor fixes `node_dist(1, 20)`, `strength_dist(1, 1000)`,
`edge_count_dist(6, 35)`.  `generateGraph` draws `edge_count`, then per edge a
source, a target by rejection sampling (`do { target = node_dist(gen); }
while (target == source)`), and a strength.  The randomness is embedded as
the per-edge draw record below; the target draw is the whole rejection trace,
of which the code keeps the first element different from the source (the
C++ loop diverges when no such element exists, which `Option` models as
`none`). -/

structure GraphRand where
  edgeCount : ℕ
  sourceDraw : ℕ → ℕ
  targetDraws : ℕ → List ℕ
  strengthDraw : ℕ → ℕ

/-- Generate edge number `i`: rejection-sample the target. -/
def genEdge (r : GraphRand) (i : ℕ) : Option GraphEdge :=
  match (r.targetDraws i).find? (fun t => !(t == r.sourceDraw i)) with
  | some t => some ⟨r.sourceDraw i, t, r.strengthDraw i⟩
  | none => none

/-- Generate the edges for the given list of edge indices. -/
def genEdges (r : GraphRand) : List ℕ → Option (List GraphEdge)
  | [] => some []
  | i :: is =>
    match genEdge r i, genEdges r is with
    | some e, some es => some (e :: es)
    | _, _ => none

/-- `GraphGenerator::generateGraph(sender_id)`. -/
def generateGraph (sender : ℕ) (r : GraphRand) : Option GraphPacket :=
  match genEdges r (List.range r.edgeCount) with
  | some es => some ⟨sender, r.edgeCount, es⟩
  | none => none

/-! ### NodeManager world model (node-announcer.cpp lines 97–160)

Coordinates are modelled by exact rationals: `updatePositions` uses only
addition, `std::min`/`std::max` comparisons, so its clamping structure is
faithfully captured.  The per-node randomness of one tick is a triple
`(coin, dx, dy)`: `coin` is the `coin_toss(gen)` draw (uniform on 0..9) and
`dx`, `dy` the two `move_dist(gen)` draws (uniform on [−5, 5], consumed only
when the coin fires). -/

/-- `std::max(0.0f, std::min(1000.0f, v))` (lines 143–144). -/
def clampQ (v : ℚ) : ℚ := max 0 (min 1000 v)

/-- The update applied to one node's position in one tick (lines 139–145):
a single `if (coin_toss(gen) % 2)` guards the update of BOTH coordinates. -/
def moveNode (r : ℕ × ℚ × ℚ) (p : ℚ × ℚ) : ℚ × ℚ :=
  if r.1 % 2 = 1 then (clampQ (p.1 + r.2.1), clampQ (p.2 + r.2.2)) else p

/-- Whether a given coin draw causes the x coordinate to be updated:
the branch at line 139 is taken iff `coin % 2` is nonzero. -/
def xUpdated (c : ℕ) : Bool := c % 2 = 1

/-- Whether a given coin draw causes the y coordinate to be updated: the
y-update at line 141 sits under the same `coin % 2` branch as the x-update. -/
def yUpdated (c : ℕ) : Bool := c % 2 = 1

/-- One `updatePositions()` pass over the position map entries (in order),
node `i` consuming the draw `r i`. -/
def updateFrom (r : ℕ → ℕ × ℚ × ℚ) (i : ℕ) :
    List (ℕ × ℚ × ℚ) → List (ℕ × ℚ × ℚ)
  | [] => []
  | (id, p) :: rest => (id, moveNode (r i) p) :: updateFrom r (i + 1) rest

/-- `NodeManager::updatePositions()`. -/
def updatePositions (r : ℕ → ℕ × ℚ × ℚ) (ps : List (ℕ × ℚ × ℚ)) :
    List (ℕ × ℚ × ℚ) :=
  updateFrom r 0 ps

/-- A sequence of ticks, each with its own randomness. -/
def ticks : List (ℕ → ℕ × ℚ × ℚ) → List (ℕ × ℚ × ℚ) → List (ℕ × ℚ × ℚ)
  | [], ps => ps
  | r :: rs, ps => ticks rs (updatePositions r ps)

/-- Both coordinates in the bounded square [0, 1000] × [0, 1000]. -/
def inRange (p : ℚ × ℚ) : Prop :=
  0 ≤ p.1 ∧ p.1 ≤ 1000 ∧ 0 ≤ p.2 ∧ p.2 ≤ 1000

/-! ### NodeManager position map and getDistance (lines 97–106, 155–159)

`std::map<uint16_t, std::pair<float,float>>` is modelled as a key-sorted
association list.  `operator[]` on a missing key value-initializes the mapped
pair, i.e. inserts `(0.0f, 0.0f)`. -/

/-- Lookup in the association list (`map::find`). -/
def mapFind : List (ℕ × ℚ × ℚ) → ℕ → Option (ℚ × ℚ)
  | [], _ => none
  | (k', v) :: rest, k => if k' = k then some v else mapFind rest k

/-- Insertion keeping keys sorted (where `std::map` places a new key). -/
def mapInsert : List (ℕ × ℚ × ℚ) → ℕ → ℚ × ℚ → List (ℕ × ℚ × ℚ)
  | [], k, v => [(k, v)]
  | (k', v') :: rest, k, v =>
    if k < k' then (k, v) :: (k', v') :: rest
    else (k', v') :: mapInsert rest k v

/-- `std::map::operator[]`: return the mapped value, value-initializing
(i.e. inserting `(0, 0)`) when the key is missing.  Returns the value read
and the possibly-extended map. -/
def mapIndex (m : List (ℕ × ℚ × ℚ)) (k : ℕ) : (ℚ × ℚ) × List (ℕ × ℚ × ℚ) :=
  match mapFind m k with
  | some v => (v, m)
  | none => ((0, 0), mapInsert m k (0, 0))

/-- The `NodeManager` state the claims are about: the `node_ids` vector and
the `positions` map. -/
structure NMState where
  node_ids : List ℕ
  positions : List (ℕ × ℚ × ℚ)
deriving DecidableEq

/-- The state-passing part of `NodeManager::getDistance` (lines 155–159):
`positions[source_id]` then `positions[target_id]` (each possibly inserting a
default entry), then the squared distance `dx*dx + dy*dy`. -/
def getDistanceAux (st : NMState) (s t : ℕ) : ℚ × NMState :=
  let r1 := mapIndex st.positions s
  let r2 := mapIndex r1.2 t
  ((r1.1.1 - r2.1.1) * (r1.1.1 - r2.1.1) + (r1.1.2 - r2.1.2) * (r1.1.2 - r2.1.2),
   ⟨st.node_ids, r2.2⟩)

/-- `NodeManager::getDistance`: `std::sqrtf(dx*dx + dy*dy)` applied to the
squared distance (real square root models `sqrtf`; the claims evaluate it
only where it is exact). -/
noncomputable def getDistance (st : NMState) (s t : ℕ) : ℝ × NMState :=
  (Real.sqrt ((getDistanceAux st s t).1 : ℝ), (getDistanceAux st s t).2)

/-! ### UDPServer::sendPacket (lines 92–94)

`void sendPacket(const void* data, size_t size) { sendto(...); }` — the
return value of `sendto` (≥ 0 on success, −1 on failure) is discarded and the
function returns normally in every case.  `osResult` is the value the OS
returns for the underlying `sendto`. -/

/-- What the caller of `sendPacket` observes, as a function of the OS send
result: the code ignores `osResult` and always returns normally. -/
def sendPacket (_osResult : ℤ) : Except Unit Unit := Except.ok ()

/-- Modelled from the spec: `emit(bytes)` "Returns success/failure. Fails
with `EmitError` when the underlying send is rejected by the OS"
(`sendto` signals rejection with a negative result). -/
def emitSpec (osResult : ℤ) : Except Unit Unit :=
  if osResult < 0 then Except.error () else Except.ok ()

/-! ### Producer loops as event traces (lines 193–266)

Each producer is `while (running) { <sweep over 20 nodes, one emission and
one inner sleep each> <outer sleep> }`: the `running` flag is read exactly
once per outer iteration.  `runPosition`/`runGraph` map the successive values
read from `running` to the trace of observable events. -/

inductive Ev where
  | poll
  | emit
  | sleepMs (ms : ℕ)
deriving DecidableEq

/-- `n` emissions, each followed by an inner sleep of `ms` milliseconds. -/
def emitsWithSleep (ms : ℕ) : ℕ → List Ev
  | 0 => []
  | n + 1 => Ev.emit :: Ev.sleepMs ms :: emitsWithSleep ms n

/-- The body of one position-server outer iteration (lines 201–236): one
emission plus 10 ms sleep per node id (20 nodes), then a 100 ms sleep.
It contains no poll of `running`. -/
def positionBody : List Ev := emitsWithSleep 10 20 ++ [Ev.sleepMs 100]

/-- The body of one graph-server outer iteration (lines 253–259): one
emission plus 200 ms sleep per node id (20 nodes), then a 2000 ms sleep.
It contains no poll of `running`. -/
def graphBody : List Ev := emitsWithSleep 200 20 ++ [Ev.sleepMs 2000]

/-- The position-server loop: each outer iteration polls `running` once and,
if it read `true`, runs the full body before polling again. -/
def runPosition : List Bool → List Ev
  | [] => []
  | f :: fs => Ev.poll :: if f then positionBody ++ runPosition fs else []

/-- The graph-server loop, same shape. -/
def runGraph : List Bool → List Ev
  | [] => []
  | f :: fs => Ev.poll :: if f then graphBody ++ runGraph fs else []

/-- Number of emissions in a trace. -/
def countEmits : List Ev → ℕ
  | [] => 0
  | Ev.emit :: rest => countEmits rest + 1
  | _ :: rest => countEmits rest

/-- Number of polls of `running` in a trace. -/
def countPolls : List Ev → ℕ
  | [] => 0
  | Ev.poll :: rest => countPolls rest + 1
  | _ :: rest => countPolls rest

/-! ### Helper lemmas -/

theorem takeAppendOfLength {α : Type} (l1 l2 : List α) (n : ℕ)
    (h : l1.length = n) : (l1 ++ l2).take n = l1 := by
  subst h; exact List.take_left l1 l2

theorem length_bytesOfEdges (es : List GraphEdge) :
    (bytesOfEdges es).length = 6 * es.length := by
  induction es with
  | nil => rfl
  | cons e es ih =>
    simp [bytesOfEdges, serializeGraphEdge, le16, ih]
    ring

theorem bytesOfEdges_append (a b : List GraphEdge) :
    bytesOfEdges (a ++ b) = bytesOfEdges a ++ bytesOfEdges b := by
  induction a with
  | nil => rfl
  | cons e es ih => simp [bytesOfEdges, ih]

theorem genEdges_length (r : GraphRand) (l : List ℕ) (es : List GraphEdge)
    (h : genEdges r l = some es) : es.length = l.length := by
  induction l generalizing es with
  | nil =>
    simp [genEdges] at h
    subst h; rfl
  | cons i is ih =>
    unfold genEdges at h
    cases h1 : genEdge r i with
    | none => rw [h1] at h; simp at h
    | some e =>
      rw [h1] at h
      cases h2 : genEdges r is with
      | none => rw [h2] at h; simp at h
      | some es' =>
        rw [h2] at h
        simp at h
        subst h
        simp [ih es' h2]

theorem genEdges_mem (r : GraphRand) (l : List ℕ) (es : List GraphEdge)
    (h : genEdges r l = some es) :
    ∀ e ∈ es, ∃ i, i ∈ l ∧ genEdge r i = some e := by
  induction l generalizing es with
  | nil =>
    simp [genEdges] at h
    subst h; simp
  | cons i is ih =>
    unfold genEdges at h
    cases h1 : genEdge r i with
    | none => rw [h1] at h; simp at h
    | some e0 =>
      rw [h1] at h
      cases h2 : genEdges r is with
      | none => rw [h2] at h; simp at h
      | some es' =>
        rw [h2] at h
        simp at h
        subst h
        intro e he
        rcases List.mem_cons.mp he with rfl | he'
        · exact ⟨i, List.mem_cons_self i is, h1⟩
        · obtain ⟨j, hj, hje⟩ := ih es' h2 e he'
          exact ⟨j, List.mem_cons_of_mem i hj, hje⟩

theorem generateGraph_destruct (sender : ℕ) (r : GraphRand) (p : GraphPacket)
    (hgen : generateGraph sender r = some p) :
    ∃ es, genEdges r (List.range r.edgeCount) = some es ∧
      p = ⟨sender, r.edgeCount, es⟩ := by
  unfold generateGraph at hgen
  cases h : genEdges r (List.range r.edgeCount) with
  | none => rw [h] at hgen; simp at hgen
  | some es =>
    rw [h] at hgen
    simp at hgen
    exact ⟨es, rfl, hgen.symm⟩

/-! ### Claim theorems -/

/-- C1 counterexample: the layout claimed by the spec — `node_id` at wire
bytes 0–1, padding at 2–3, `x` at 4–7, only the low two bytes of `y` at
8–9 — does not match the emitted datagram for node 1 at padding content 7,
x-bits 0, y-bits 0x12345678, for ANY value of the claimed padding bytes: the
actual datagram carries `x` at bytes 2–5 (so byte 6 is 0x78, a `y` byte,
where the claim requires an `x` byte, 0). -/
theorem position_layout_claim_refuted :
    ¬ ∃ pad2 : ℕ, positionWire 1 7 0 0x12345678 =
      claimedPositionLayout 1 pad2 0 0x12345678 := by
  rintro ⟨p2, h⟩
  simp [positionWire, positionRecordAtSend, positionRecord, memcpyAt,
    le16, le32, claimedPositionLayout] at h

/-- C1 (corrected): every emitted Position datagram is exactly 10 bytes, but
laid out as `node_id` (u16, a second copy written over the record's padding)
at bytes 0–1, `x` (f32) at bytes 4–7 of the RECORD i.e. wire bytes 2–5, and
ALL FOUR bytes of `y` at wire bytes 6–9: the high 16 bits of `y` are
transmitted. -/
theorem position_wire_layout (n p x y : ℕ) :
    positionWire n p x y = le16 n ++ le32 x ++ le32 y ∧
    (positionWire n p x y).length = 10 :=
  ⟨rfl, rfl⟩

/-- C3 (confirmed): the first 2 wire bytes are exactly the bytes occupying
the record's padding region (bytes 2–3) at send time, which the pre-send
`memcpy` filled with `node_id`; wire bytes 2–5 are the bytes of the original
`x`; wire bytes 6–9 are the (low) 4 bytes of `y`, whose first two bytes are
the low half of `y`. -/
theorem position_wire_roundtrip (n p x y : ℕ) :
    (positionWire n p x y).take 2 =
      ((positionRecordAtSend n p x y).drop 2).take 2 ∧
    ((positionRecordAtSend n p x y).drop 2).take 2 = le16 n ∧
    ((positionWire n p x y).drop 2).take 4 = le32 x ∧
    (positionWire n p x y).drop 6 = le32 y ∧
    ((positionWire n p x y).drop 6).take 2 = (le32 y).take 2 :=
  ⟨rfl, rfl, rfl, rfl, rfl⟩

/-- C2 (confirmed): a Graph datagram generated with an `edge_count` draw in
the distribution's range [6, 35] has length 4 + 6 · `edge_count` bytes
(whatever indeterminate junk sits in the unsent tail of the 50-slot backing
array), hence never exceeds 214 bytes. -/
theorem graph_wire_length (sender : ℕ) (r : GraphRand) (p : GraphPacket)
    (junk : List GraphEdge) (h6 : 6 ≤ r.edgeCount) (h35 : r.edgeCount ≤ 35)
    (hgen : generateGraph sender r = some p) :
    (graphWire p junk).length = 4 + 6 * p.edge_count ∧
    6 ≤ p.edge_count ∧ p.edge_count ≤ 35 ∧ (graphWire p junk).length ≤ 214 := by
  obtain ⟨es, hes, rfl⟩ := generateGraph_destruct sender r p hgen
  have hlen : es.length = r.edgeCount := by
    simpa using genEdges_length r _ es hes
  simp [graphWire, graphSendLen, length_bytesOfEdges, le16, hlen]
  omega

/-- C7 (confirmed): the emitted Graph datagram consists exactly of the
serialized `sender_id`, `edge_count` and the `edge_count` generated edge
records; the bytes of the junk tail of the 50-slot backing array do not
appear in it (the right-hand side does not mention `junk`), so no
uninitialized byte past the declared length is sent. -/
theorem graph_wire_junk_free (sender : ℕ) (r : GraphRand) (p : GraphPacket)
    (junk : List GraphEdge) (h50 : r.edgeCount ≤ 50)
    (hgen : generateGraph sender r = some p) :
    graphWire p junk =
      le16 p.sender_id ++ le16 p.edge_count ++ bytesOfEdges p.edges := by
  obtain ⟨es, hes, rfl⟩ := generateGraph_destruct sender r p hgen
  have hlen : es.length = r.edgeCount := by
    simpa using genEdges_length r _ es hes
  have hA : (le16 sender ++ le16 r.edgeCount ++ bytesOfEdges es).length =
      graphSendLen r.edgeCount := by
    simp [le16, length_bytesOfEdges, graphSendLen, hlen]
    omega
  show (le16 sender ++ le16 r.edgeCount ++ bytesOfEdges (es ++ junk)).take
      (graphSendLen r.edgeCount) = _
  rw [bytesOfEdges_append, ← List.append_assoc]
  rw [List.append_assoc (le16 sender)]
  exact takeAppendOfLength _ _ _ hA

/-- C4 (confirmed): every edge of a generated Graph packet has distinct
endpoints (the rejection loop accepts only a target different from the
source), both endpoints in the `node_dist` range [1, 20], and strength in the
`strength_dist` range [1, 1000]. -/
theorem generated_edges_valid (sender : ℕ) (r : GraphRand) (p : GraphPacket)
    (hs : ∀ i, 1 ≤ r.sourceDraw i ∧ r.sourceDraw i ≤ 20)
    (ht : ∀ i t, t ∈ r.targetDraws i → 1 ≤ t ∧ t ≤ 20)
    (hw : ∀ i, 1 ≤ r.strengthDraw i ∧ r.strengthDraw i ≤ 1000)
    (hgen : generateGraph sender r = some p) :
    ∀ e ∈ p.edges, e.source_id ≠ e.target_id ∧
      (1 ≤ e.source_id ∧ e.source_id ≤ 20) ∧
      (1 ≤ e.target_id ∧ e.target_id ≤ 20) ∧
      (1 ≤ e.strength ∧ e.strength ≤ 1000) := by
  obtain ⟨es, hes, rfl⟩ := generateGraph_destruct sender r p hgen
  intro e he
  obtain ⟨i, _, hei⟩ := genEdges_mem r _ es hes e he
  unfold genEdge at hei
  cases hfind : (r.targetDraws i).find? (fun t => !(t == r.sourceDraw i)) with
  | none => rw [hfind] at hei; simp at hei
  | some t =>
    rw [hfind] at hei
    simp at hei
    subst hei
    have hmem := List.mem_of_find?_eq_some hfind
    have hp := List.find?_some hfind
    have hne : t ≠ r.sourceDraw i := by simpa using hp
    exact ⟨fun hcontra => hne (hcontra.symm), hs i, ht i t hmem, hw i⟩

/-- A concrete randomness record for the graph generator: `edge_count` draw
6, every source draw 1, every rejection trace [1, 2] (first draw rejected,
second accepted), every strength draw 5. -/
def randW : GraphRand := ⟨6, fun _ => 1, fun _ => [1, 2], fun _ => 5⟩

/-- The packet `generateGraph 3 randW` produces. -/
def packetW : GraphPacket := ⟨3, 6, List.replicate 6 ⟨1, 2, 5⟩⟩

/-- C4 witness: `generated_edges_valid` evaluated on `randW`, at the edge
⟨1, 2, 5⟩ the generator produced. -/
theorem generated_edges_valid_witness :
    (⟨1, 2, 5⟩ : GraphEdge) ∈ packetW.edges ∧
    ((⟨1, 2, 5⟩ : GraphEdge).source_id ≠ (⟨1, 2, 5⟩ : GraphEdge).target_id ∧
      (1 ≤ (⟨1, 2, 5⟩ : GraphEdge).source_id ∧
        (⟨1, 2, 5⟩ : GraphEdge).source_id ≤ 20) ∧
      (1 ≤ (⟨1, 2, 5⟩ : GraphEdge).target_id ∧
        (⟨1, 2, 5⟩ : GraphEdge).target_id ≤ 20) ∧
      (1 ≤ (⟨1, 2, 5⟩ : GraphEdge).strength ∧
        (⟨1, 2, 5⟩ : GraphEdge).strength ≤ 1000)) :=
  ⟨by decide,
    generated_edges_valid 3 randW packetW
      (fun _ => by norm_num [randW])
      (fun i t htm => by
        simp [randW] at htm
        rcases htm with rfl | rfl <;> norm_num)
      (fun _ => by norm_num [randW])
      rfl
      ⟨1, 2, 5⟩ (by decide)⟩

/-- C2 witness: `graph_wire_length` evaluated on `randW`. -/
theorem graph_wire_length_witness :
    (graphWire packetW []).length = 4 + 6 * packetW.edge_count ∧
    6 ≤ packetW.edge_count ∧ packetW.edge_count ≤ 35 ∧
    (graphWire packetW []).length ≤ 214 :=
  graph_wire_length 3 randW packetW [] (by decide) (by decide) rfl

/-- C7 witness: `graph_wire_junk_free` evaluated on `randW` with one junk
slot. -/
theorem graph_wire_junk_free_witness :
    graphWire packetW [⟨9, 9, 9⟩] =
      le16 packetW.sender_id ++ le16 packetW.edge_count ++
        bytesOfEdges packetW.edges :=
  graph_wire_junk_free 3 randW packetW [⟨9, 9, 9⟩] (by decide) rfl

theorem clampQ_bounds (v : ℚ) : 0 ≤ clampQ v ∧ clampQ v ≤ 1000 :=
  ⟨le_max_left 0 _, max_le (by norm_num) (min_le_left 1000 v)⟩

theorem updateFrom_inRange (r : ℕ → ℕ × ℚ × ℚ) :
    ∀ (ps : List (ℕ × ℚ × ℚ)) (i : ℕ), (∀ e ∈ ps, inRange e.2) →
      ∀ e ∈ updateFrom r i ps, inRange e.2 := by
  intro ps
  induction ps with
  | nil => intro i _ e he; simp [updateFrom] at he
  | cons hd tl ih =>
    intro i h e he
    obtain ⟨id, p⟩ := hd
    simp only [updateFrom] at he
    rcases List.mem_cons.mp he with rfl | he'
    · show inRange (moveNode (r i) p)
      unfold moveNode
      split
      · exact ⟨(clampQ_bounds _).1, (clampQ_bounds _).2,
          (clampQ_bounds _).1, (clampQ_bounds _).2⟩
      · exact h (id, p) (List.mem_cons_self _ _)
    · exact ih (i + 1) (fun e' he'' => h e' (List.mem_cons_of_mem _ he'')) e he'

theorem ticks_inRange (rs : List (ℕ → ℕ × ℚ × ℚ)) :
    ∀ ps, (∀ e ∈ ps, inRange e.2) → ∀ e ∈ ticks rs ps, inRange e.2 := by
  induction rs with
  | nil => intro ps h e he; exact h e (by simpa [ticks] using he)
  | cons r rs ih =>
    intro ps h e he
    exact ih (updatePositions r ps) (updateFrom_inRange r ps 0 h) e
      (by simpa [ticks] using he)

/-- C5 (confirmed): from any construction state with all coordinates in
[0, 1000] (initial positions are drawn from `pos_dist(0, 1000)`), every state
reachable by any sequence of ticks keeps every coordinate in [0, 1000];
moreover a node at (0, 0) moving by (−5, −5) stays at (0, 0), and a node at
(1000, 1000) moving by (+5, +5) stays at (1000, 1000). -/
theorem positions_stay_in_range (ps : List (ℕ × ℚ × ℚ))
    (rs : List (ℕ → ℕ × ℚ × ℚ)) (h : ∀ e ∈ ps, inRange e.2) :
    (∀ e ∈ ticks rs ps, inRange e.2) ∧
    moveNode (1, -5, -5) (0, 0) = (0, 0) ∧
    moveNode (1, 5, 5) (1000, 1000) = (1000, 1000) := by
  refine ⟨ticks_inRange rs ps h, ?_, ?_⟩ <;>
    norm_num [moveNode, clampQ]

/-- C5 witness: `positions_stay_in_range` on a one-node state at (5, 5) with
no ticks. -/
theorem positions_stay_in_range_witness :
    (∀ e ∈ ticks [] [((1 : ℕ), ((5 : ℚ), (5 : ℚ)))], inRange e.2) ∧
    moveNode (1, -5, -5) (0, 0) = (0, 0) ∧
    moveNode (1, 5, 5) (1000, 1000) = (1000, 1000) :=
  positions_stay_in_range [((1 : ℕ), ((5 : ℚ), (5 : ℚ)))] []
    (by
      intro e he
      rcases List.mem_singleton.mp he with rfl
      exact ⟨by norm_num, by norm_num, by norm_num, by norm_num⟩)

theorem moveNode_axes (c : ℕ) (dx dy : ℚ) (p : ℚ × ℚ) :
    moveNode (c, dx, dy) p =
      ((if xUpdated c then clampQ (p.1 + dx) else p.1),
       (if yUpdated c then clampQ (p.2 + dy) else p.2)) := by
  by_cases h : c % 2 = 1 <;> simp [moveNode, xUpdated, yUpdated, h]

/-- C6 counterexample: over the 10 equally likely draws of the per-node coin
`coin_toss(gen)`, the event "the x axis is updated" and the event "the y axis
is not updated" fail the product law of independent events: the joint count
times 10 (= 0) differs from the product of the marginal counts (= 5 · 5), so
the two axes of a node do NOT move independently with probability ½ each —
one coin drives both axes. -/
theorem per_axis_independence_refuted :
    10 * ((Finset.range 10).filter
        (fun c => xUpdated c = true ∧ yUpdated c = false)).card ≠
      ((Finset.range 10).filter (fun c => xUpdated c = true)).card *
        ((Finset.range 10).filter (fun c => yUpdated c = false)).card := by
  decide

/-- C6 (corrected): in every tick each NODE moves with probability ½ (the
branch fires on 5 of the 10 equally likely coin values); when the node moves,
BOTH axes are updated together — each axis gets its own delta added and is
then clamped — and when it does not move, neither axis changes: the x axis is
updated exactly when the y axis is, never independently. -/
theorem node_move_coupled :
    ((Finset.range 10).filter (fun c => xUpdated c = true)).card = 5 ∧
    ((Finset.range 10).filter (fun c => yUpdated c = true)).card = 5 ∧
    (∀ c, xUpdated c = yUpdated c) ∧
    (∀ (c : ℕ) (dx dy : ℚ) (p : ℚ × ℚ), xUpdated c = true →
      moveNode (c, dx, dy) p = (clampQ (p.1 + dx), clampQ (p.2 + dy))) ∧
    (∀ (c : ℕ) (dx dy : ℚ) (p : ℚ × ℚ), xUpdated c = false →
      moveNode (c, dx, dy) p = p) := by
  refine ⟨by decide, by decide, fun c => rfl, ?_, ?_⟩
  · intro c dx dy p hc
    have h : c % 2 = 1 := by simpa [xUpdated] using hc
    simp [moveNode, h]
  · intro c dx dy p hc
    have h : ¬ c % 2 = 1 := by simpa [xUpdated] using hc
    simp [moveNode, h]

/-- C6 witness: `node_move_coupled` applied at coin draw 1 with deltas
(2, 3) at position (10, 20). -/
theorem node_move_coupled_witness :
    xUpdated 1 = true ∧
    moveNode (1, 2, 3) ((10 : ℚ), (20 : ℚ)) =
      (clampQ (10 + 2), clampQ (20 + 3)) :=
  ⟨by decide, node_move_coupled.2.2.2.1 1 2 3 (10, 20) (by decide)⟩

/-- C8 counterexample: the `running` flag is polled only at the head of the
outer loop, never inside the per-node sweep.  If the flag turns false right
after a poll read true, the position producer still performs the entire sweep
— 20 further emissions, not at most one — before the next poll lets it exit:
in the trace of `runPosition [true, false]`, everything after the first poll
happens after the moment the flag could have transitioned, and it contains
20 emissions and no intervening poll. -/
theorem stop_latency_claim_refuted :
    countEmits ((runPosition [true, false]).drop 1) = 20 ∧
    countPolls positionBody = 0 ∧
    ¬ countEmits ((runPosition [true, false]).drop 1) ≤ 1 := by
  refine ⟨by decide, by decide, by decide⟩

/-- C8 (corrected): cancellation is cooperative but polled once per OUTER
loop iteration (once per sweep), not once per emission: a producer that reads
`running = false` at the loop head exits at once with no further emission,
but a producer that read `true` just before the flag transition completes its
whole sweep — 20 further emissions (≈ 20·10 ms + 100 ms for the position
producer, ≈ 20·200 ms + 2 s for the graph producer) — before exiting. -/
theorem stop_latency :
    (∀ fs, runPosition (false :: fs) = [Ev.poll]) ∧
    (∀ fs, runGraph (false :: fs) = [Ev.poll]) ∧
    countEmits ((runPosition [true, false]).drop 1) = 20 ∧
    countEmits ((runGraph [true, false]).drop 1) = 20 ∧
    countPolls positionBody = 0 ∧ countPolls graphBody = 0 := by
  exact ⟨fun fs => by simp [runPosition], fun fs => by simp [runGraph],
    by decide, by decide, by decide, by decide⟩

/-- C9 counterexample: when the OS rejects the send (`sendto` returns −1),
`sendPacket` still returns plain success — it does not fail with an
`EmitError` as the spec-modelled `emitSpec` requires. -/
theorem emit_error_claim_refuted :
    sendPacket (-1) ≠ emitSpec (-1) ∧ emitSpec (-1) = Except.error () := by
  constructor
  · intro h
    simp [sendPacket, emitSpec] at h
  · norm_num [emitSpec]

/-- C9 (corrected): `sendPacket` forwards the buffer to a single `sendto`
call and discards the result: it returns no success/failure indication and
raises no error for ANY OS outcome — in particular a failed send never
terminates the producer, which continues with the next emission (the
producer loops never branch on a send result). -/
theorem send_never_fails : ∀ osResult : ℤ, sendPacket osResult = Except.ok () :=
  fun _ => rfl

theorem mapFind_mapInsert_self (m : List (ℕ × ℚ × ℚ)) (k : ℕ) (v : ℚ × ℚ)
    (h : mapFind m k = none) : mapFind (mapInsert m k v) k = some v := by
  induction m with
  | nil => simp [mapInsert, mapFind]
  | cons hd tl ih =>
    obtain ⟨k', v'⟩ := hd
    rw [mapFind] at h
    by_cases hk : k' = k
    · rw [if_pos hk] at h; cases h
    · rw [if_neg hk] at h
      rw [mapInsert]
      by_cases hlt : k < k'
      · rw [if_pos hlt, mapFind, if_pos rfl]
      · rw [if_neg hlt, mapFind, if_neg hk]
        exact ih h

theorem mapFind_mapInsert_ne (m : List (ℕ × ℚ × ℚ)) (k k' : ℕ) (v : ℚ × ℚ)
    (h : k' ≠ k) : mapFind (mapInsert m k v) k' = mapFind m k' := by
  induction m with
  | nil =>
    simp [mapInsert, mapFind, Ne.symm h]
  | cons hd tl ih =>
    obtain ⟨a, b⟩ := hd
    rw [mapInsert]
    by_cases hlt : k < a
    · rw [if_pos hlt, mapFind, if_neg (Ne.symm h)]
    · rw [if_neg hlt, mapFind, mapFind]
      by_cases hak : a = k'
      · rw [if_pos hak, if_pos hak]
      · rw [if_neg hak, if_neg hak]
        exact ih

theorem mapIndex_fst (m : List (ℕ × ℚ × ℚ)) (k : ℕ) :
    (mapIndex m k).1 = (mapFind m k).getD (0, 0) := by
  cases h : mapFind m k <;> simp [mapIndex, h]

theorem mapIndex_snd_find_self (m : List (ℕ × ℚ × ℚ)) (k : ℕ) :
    mapFind (mapIndex m k).2 k = some ((mapFind m k).getD (0, 0)) := by
  cases h : mapFind m k with
  | some v => simp [mapIndex, h]
  | none => simp [mapIndex, h, mapFind_mapInsert_self m k _ h]

theorem mapIndex_snd_find_ne (m : List (ℕ × ℚ × ℚ)) (k k' : ℕ) (h : k' ≠ k) :
    mapFind (mapIndex m k).2 k' = mapFind m k' := by
  cases hf : mapFind m k with
  | some v => simp [mapIndex, hf]
  | none => simp [mapIndex, hf, mapFind_mapInsert_ne m k k' _ h]

theorem mapIndex_after_fst (m : List (ℕ × ℚ × ℚ)) (s t : ℕ) :
    (mapIndex (mapIndex m s).2 t).1 = (mapFind m t).getD (0, 0) := by
  rw [mapIndex_fst]
  by_cases hts : t = s
  · subst hts
    rw [mapIndex_snd_find_self]
    simp
  · rw [mapIndex_snd_find_ne m s t hts]

/-- C10 (confirmed): for any state and any pair of ids, `getDistance s t`
leaves the node id sequence unchanged, maps `s` and `t` in the resulting
position map to their old value when present and to the inserted default
(0, 0) when absent (every other key is untouched — absent keys stay absent),
and returns the Euclidean distance computed from exactly those
present-or-default positions. -/
theorem getDistance_default_inserts (st : NMState) (s t : ℕ) :
    (getDistance st s t).2.node_ids = st.node_ids ∧
    (∀ k, mapFind (getDistance st s t).2.positions k =
      if k = s ∨ k = t then some ((mapFind st.positions k).getD (0, 0))
      else mapFind st.positions k) ∧
    (getDistance st s t).1 = Real.sqrt
      (((((mapFind st.positions s).getD (0, 0)).1 -
          ((mapFind st.positions t).getD (0, 0)).1) *
        (((mapFind st.positions s).getD (0, 0)).1 -
          ((mapFind st.positions t).getD (0, 0)).1) +
        (((mapFind st.positions s).getD (0, 0)).2 -
          ((mapFind st.positions t).getD (0, 0)).2) *
        (((mapFind st.positions s).getD (0, 0)).2 -
          ((mapFind st.positions t).getD (0, 0)).2) : ℚ)) := by
  refine ⟨rfl, ?_, ?_⟩
  · intro k
    show mapFind (mapIndex (mapIndex st.positions s).2 t).2 k = _
    by_cases hkt : k = t
    · subst hkt
      rw [mapIndex_snd_find_self, if_pos (Or.inr rfl)]
      congr 1
      by_cases hks : k = s
      · subst hks
        rw [mapIndex_snd_find_self]
        simp
      · rw [mapIndex_snd_find_ne _ _ _ hks]
    · rw [mapIndex_snd_find_ne _ _ _ hkt]
      by_cases hks : k = s
      · subst hks
        rw [mapIndex_snd_find_self, if_pos (Or.inl rfl)]
      · rw [mapIndex_snd_find_ne _ _ _ hks,
          if_neg (fun hor => hor.elim hks hkt)]
  · have h1 := mapIndex_fst st.positions s
    have h2 := mapIndex_after_fst st.positions s t
    simp only [getDistance, getDistanceAux]
    rw [h1, h2]

end NodeAnnouncer
